import Mathlib

/-!
Shallow embedding of the L2-atomics counting barrier of
`src/fastBarrierBGQ.hh` (functions `L2_BarrierWithSync_Init`,
`L2_BarrierWithSync_InitInThread`, `L2_BarrierWithSync_Arrive`,
`L2_BarrierWithSync_Reset`, `L2_BarrierWithSync_WaitAndReset`,
`L2_BarrierWithSync_Barrier`), together with a sequential-interleaving
semantics for sequences of `Arrive` calls and for repeated rounds.

The C fields `start`, `count` and `localStart` are `uint64_t`; they are
modelled as `Nat` with every arithmetic operation reduced `% 2 ^ 64`
exactly where the machine would wrap.  The `eventNum` parameter is a C
`int` that the code immediately adds to a `uint64_t`; all uses in the
repository pass a positive round size, so it is modelled as `Nat`
(a non-negative `int` converts to `uint64_t` as its value).
-/

/-- Word modulus of the `uint64_t` fields of the barrier. -/
def W : Nat := 2 ^ 64

/-- `L2_Barrier_t`: the shared barrier state.  The two `volatile uint64_t`
fields `start` and `count` (the cache-line alignment and the trailing pad
have no functional content and are not modelled). -/
structure L2_Barrier_t where
  start : Nat
  count : Nat
  deriving Repr, DecidableEq

/-- `L2_BarrierHandle_t`: the thread-private handle.  In C it holds
`localStart` and `localCountPtr`, the L2-encoded fetch-and-increment
address of the shared `count` field.  The embedding passes the shared
barrier explicitly to every operation, so the bound increment address is
represented by `Arrive` acting directly on `b.count`; the handle carries
the `localStart` field. -/
structure L2_BarrierHandle_t where
  localStart : Nat
  deriving Repr, DecidableEq

/-- `L2_BarrierWithSync_Init`: sets `b->start = b->count = 0`. -/
def L2_BarrierWithSync_Init (_b : L2_Barrier_t) : L2_Barrier_t :=
  { start := 0, count := 0 }

/-- `L2_BarrierWithSync_InitInThread`: sets `h->localStart = 0` and binds
`h->localCountPtr` to the fetch-and-increment address of `b->count`
(the binding is implicit in the embedding, see `L2_BarrierHandle_t`).
The shared state is only read, never written. -/
def L2_BarrierWithSync_InitInThread (b : L2_Barrier_t) :
    L2_Barrier_t × L2_BarrierHandle_t :=
  (b, { localStart := 0 })

/-- `L2_BarrierWithSync_Arrive`: after a release barrier (`__lwsync`,
no functional content in a sequential interleaving), atomically
fetch-and-increments `b->count`; `current` is the post-increment value.
If `current == h->localStart + eventNum` it writes `b->start = current`;
otherwise `b->start` is untouched.  The handle is not written. -/
def L2_BarrierWithSync_Arrive (b : L2_Barrier_t) (h : L2_BarrierHandle_t)
    (eventNum : Nat) : L2_Barrier_t × L2_BarrierHandle_t :=
  let current := (b.count + 1) % W
  let target := (h.localStart + eventNum) % W
  ({ start := if current = target then current else b.start,
     count := current }, h)

/-- `L2_BarrierWithSync_Reset`: `target = h->localStart + eventNum`
(uint64 addition), then `h->localStart = target`.  No read or write of
the shared state, no waiting. -/
def L2_BarrierWithSync_Reset (b : L2_Barrier_t) (h : L2_BarrierHandle_t)
    (eventNum : Nat) : L2_Barrier_t × L2_BarrierHandle_t :=
  (b, { localStart := (h.localStart + eventNum) % W })

/-- `L2_BarrierWithSync_WaitAndReset`: computes
`target = h->localStart + eventNum`, advances `h->localStart = target`,
then spins `while (b->start < target)`.  The handle component is the
state of `h` after the write that precedes the spin; the `Option`
component is `some b` when the spin exits (the shared state is only
read) and `none` when, at this snapshot of `b->start`, the spin loop
never exits. -/
def L2_BarrierWithSync_WaitAndReset (b : L2_Barrier_t)
    (h : L2_BarrierHandle_t) (eventNum : Nat) :
    L2_BarrierHandle_t × Option L2_Barrier_t :=
  let target := (h.localStart + eventNum) % W
  ({ localStart := target }, if b.start < target then none else some b)

/-- `L2_BarrierWithSync_Barrier`: `Arrive` immediately followed by
`WaitAndReset` on the same arguments. -/
def L2_BarrierWithSync_Barrier (b : L2_Barrier_t) (h : L2_BarrierHandle_t)
    (eventNum : Nat) : L2_BarrierHandle_t × Option L2_Barrier_t :=
  let ba := L2_BarrierWithSync_Arrive b h eventNum
  L2_BarrierWithSync_WaitAndReset ba.1 ba.2 eventNum

/-- The guard of the conditional write in `Arrive`: the call observing
post-increment value `current` writes `b->start` iff
`current == h->localStart + eventNum`. -/
def arriveWrites (b : L2_Barrier_t) (h : L2_BarrierHandle_t)
    (eventNum : Nat) : Bool :=
  (b.count + 1) % W == (h.localStart + eventNum) % W

/-- A sequential interleaving of `Arrive` calls: the shared state after
the calls listed in `hs` (each element the private handle of the caller)
run in that order.  `Arrive` never writes a handle, so only the shared
state is threaded. -/
def arriveSeq (b : L2_Barrier_t) (hs : List L2_BarrierHandle_t)
    (eventNum : Nat) : L2_Barrier_t :=
  match hs with
  | [] => b
  | h :: t => arriveSeq (L2_BarrierWithSync_Arrive b h eventNum).1 t eventNum

/-- Number of calls in the interleaving `hs` whose conditional write to
`b->start` fires. -/
def countStartWrites (b : L2_Barrier_t) (hs : List L2_BarrierHandle_t)
    (eventNum : Nat) : Nat :=
  match hs with
  | [] => 0
  | h :: t =>
      (if arriveWrites b h eventNum then 1 else 0) +
        countStartWrites (L2_BarrierWithSync_Arrive b h eventNum).1 t eventNum

/-- The same thread calling `Arrive` `k` times in a row with its own
handle, threading both results. -/
def arriveRepeat (b : L2_Barrier_t) (h : L2_BarrierHandle_t)
    (eventNum k : Nat) : L2_Barrier_t × L2_BarrierHandle_t :=
  match k with
  | 0 => (b, h)
  | k + 1 =>
      let r := L2_BarrierWithSync_Arrive b h eventNum
      arriveRepeat r.1 r.2 eventNum k

/-- The spin loop `while (b->start < target) ;` of `WaitAndReset`,
read by read: `observe i` is the value of the volatile `b->start` seen
by the `i`-th iteration (concurrent `Arrive` calls may change it between
reads).  Fuel bounds the number of iterations inspected; the loop itself
has no bound, which is expressed by quantifying over all fuels.  Returns
the index of the first read `>= target` when one occurs within `fuel`
iterations. -/
def spinLoop (observe : Nat → Nat) (target i fuel : Nat) : Option Nat :=
  match fuel with
  | 0 => none
  | fuel + 1 =>
      if observe i < target then spinLoop observe target (i + 1) fuel
      else some i

/-- Successive complete rounds of the barrier on one shared state, tracking
one consumer handle.  Round `r` consists of the interleaving `arr r` of
`Arrive` calls by the producers followed by the tracked thread's
`WaitAndReset` (whose handle update `localStart += eventNum` is the very
update `Reset` performs, so the tracked handle is representative of every
participating handle's round boundary).  The state starts from `Init`
followed by `InitInThread`, with no reinitialization between rounds. -/
def roundIter (eventNum : Nat) (arr : Nat → List L2_BarrierHandle_t) :
    Nat → L2_Barrier_t × L2_BarrierHandle_t
  | 0 => L2_BarrierWithSync_InitInThread (L2_BarrierWithSync_Init ⟨0, 0⟩)
  | r + 1 =>
      let st := roundIter eventNum arr r
      let b := arriveSeq st.1 (arr r) eventNum
      (b, (L2_BarrierWithSync_WaitAndReset b st.2 eventNum).1)

/-- A concrete arrangement of producers for two-event rounds: in round `r`
both arrivals come from handles whose `localStart` is at the round
boundary `r * 2`. -/
def arrTwo (r : Nat) : List L2_BarrierHandle_t :=
  List.replicate 2 { localStart := r * 2 }

/-- C1: `Arrive(b, h, eventNum)` increments the shared `count` by exactly
one (stated below wraparound, `b.count + 1 < 2 ^ 64`, consistent with the
monotone non-wrapping counters of the code); with `current` the
post-increment value, it writes `b.start = current` exactly when
`current = h.localStart + eventNum` and leaves `b.start` unchanged in
every other case. -/
theorem arrive_increments_and_publishes (b : L2_Barrier_t)
    (h : L2_BarrierHandle_t) (eventNum : Nat)
    (hc : b.count + 1 < W) (ht : h.localStart + eventNum < W) :
    (L2_BarrierWithSync_Arrive b h eventNum).1.count = b.count + 1 ∧
    (L2_BarrierWithSync_Arrive b h eventNum).1.start =
      (if b.count + 1 = h.localStart + eventNum then b.count + 1
       else b.start) := by
  have hcur : (b.count + 1) % W = b.count + 1 := Nat.mod_eq_of_lt hc
  have htar : (h.localStart + eventNum) % W = h.localStart + eventNum :=
    Nat.mod_eq_of_lt ht
  constructor
  · simp [L2_BarrierWithSync_Arrive, hcur]
  · simp [L2_BarrierWithSync_Arrive, hcur, htar]

/-- Witness for C1 at `b = {start := 0, count := 0}`, `h = {localStart := 0}`,
`eventNum = 1`: the single arrival of a one-event round bumps `count` to 1
and publishes `start = 1`. -/
theorem arrive_increments_and_publishes_witness :
    ((0 : Nat) + 1 < W ∧ (0 : Nat) + 1 < W) ∧
    ((L2_BarrierWithSync_Arrive ⟨0, 0⟩ ⟨0⟩ 1).1.count = 0 + 1 ∧
     (L2_BarrierWithSync_Arrive ⟨0, 0⟩ ⟨0⟩ 1).1.start =
       (if (0 : Nat) + 1 = 0 + 1 then 0 + 1 else 0)) :=
  ⟨⟨by decide, by decide⟩,
   arrive_increments_and_publishes ⟨0, 0⟩ ⟨0⟩ 1 (by decide) (by decide)⟩

/-- C10: `InitInThread(b, h)` sets `h.localStart = 0` (and binds the
handle's increment address to `b.count`, which the embedding represents
implicitly) while leaving both shared fields of `b` unchanged. -/
theorem initInThread_zeroes_handle_and_preserves_shared
    (b : L2_Barrier_t) :
    (L2_BarrierWithSync_InitInThread b).1 = b ∧
    (L2_BarrierWithSync_InitInThread b).2.localStart = 0 :=
  ⟨rfl, rfl⟩

/-- C9: `Arrive` never writes the handle: a single call returns `h`
itself, and `k` successive calls by the same thread leave the handle's
round-boundary value untouched. -/
theorem arrive_preserves_handle (b : L2_Barrier_t)
    (h : L2_BarrierHandle_t) (eventNum k : Nat) :
    (L2_BarrierWithSync_Arrive b h eventNum).2 = h ∧
    (arriveRepeat b h eventNum k).2 = h := by
  refine ⟨rfl, ?_⟩
  induction k generalizing b with
  | zero => rfl
  | succ k ih => exact ih _

/-- C5: `Barrier(b, h, eventNum)` is definitionally `Arrive(b, h, eventNum)`
immediately followed by `WaitAndReset` on the resulting states: the final
handle state, the final shared state, and the blocking condition all
coincide with those of the sequential composition. -/
theorem barrier_is_arrive_then_waitAndReset (b : L2_Barrier_t)
    (h : L2_BarrierHandle_t) (eventNum : Nat) :
    L2_BarrierWithSync_Barrier b h eventNum =
      L2_BarrierWithSync_WaitAndReset
        (L2_BarrierWithSync_Arrive b h eventNum).1
        (L2_BarrierWithSync_Arrive b h eventNum).2 eventNum :=
  rfl

/-- C6: `Reset(b, h, eventNum)` advances `h.localStart` by `eventNum`
(stated below wraparound), never blocks (it is a total function that
returns both components directly), and leaves both shared fields of `b`
unchanged. -/
theorem reset_advances_handle_and_preserves_shared (b : L2_Barrier_t)
    (h : L2_BarrierHandle_t) (eventNum : Nat)
    (hw : h.localStart + eventNum < W) :
    (L2_BarrierWithSync_Reset b h eventNum).1 = b ∧
    (L2_BarrierWithSync_Reset b h eventNum).2.localStart =
      h.localStart + eventNum := by
  refine ⟨rfl, ?_⟩
  simp [L2_BarrierWithSync_Reset, Nat.mod_eq_of_lt hw]

/-- Witness for C6 at `b = {start := 3, count := 5}`, `h = {localStart := 2}`,
`eventNum = 4`. -/
theorem reset_advances_handle_and_preserves_shared_witness :
    ((2 : Nat) + 4 < W) ∧
    ((L2_BarrierWithSync_Reset ⟨3, 5⟩ ⟨2⟩ 4).1 = ⟨3, 5⟩ ∧
     (L2_BarrierWithSync_Reset ⟨3, 5⟩ ⟨2⟩ 4).2.localStart = 2 + 4) :=
  ⟨by decide, reset_advances_handle_and_preserves_shared ⟨3, 5⟩ ⟨2⟩ 4 (by decide)⟩

/-- C3: `WaitAndReset(b, h, eventNum)` advances `h.localStart` to its old
value plus `eventNum` before beginning to wait (the handle component is
updated whether or not the spin can exit), spins exactly while
`b.start < target` with `target` computed from the pre-update
`localStart`, and returns (with the shared state only read) exactly once
`b.start >= target`.  Stated below wraparound. -/
theorem waitAndReset_advances_then_waits (b : L2_Barrier_t)
    (h : L2_BarrierHandle_t) (eventNum : Nat)
    (hw : h.localStart + eventNum < W) :
    (L2_BarrierWithSync_WaitAndReset b h eventNum).1.localStart =
      h.localStart + eventNum ∧
    ((L2_BarrierWithSync_WaitAndReset b h eventNum).2.isSome ↔
      h.localStart + eventNum ≤ b.start) ∧
    (L2_BarrierWithSync_WaitAndReset b h eventNum).2 =
      (if b.start < h.localStart + eventNum then none else some b) := by
  have htar : (h.localStart + eventNum) % W = h.localStart + eventNum :=
    Nat.mod_eq_of_lt hw
  refine ⟨by simp [L2_BarrierWithSync_WaitAndReset, htar], ?_, ?_⟩
  · by_cases hlt : b.start < h.localStart + eventNum
    · simp [L2_BarrierWithSync_WaitAndReset, htar, hlt, Nat.not_le_of_lt hlt]
    · simp [L2_BarrierWithSync_WaitAndReset, htar, hlt, Nat.le_of_not_lt hlt]
  · simp [L2_BarrierWithSync_WaitAndReset, htar]

/-- Witness for C3 at `b = {start := 6, count := 6}`, `h = {localStart := 3}`,
`eventNum = 3`: the target 6 is already reached, so the call returns and
the handle ends at 6. -/
theorem waitAndReset_advances_then_waits_witness :
    ((3 : Nat) + 3 < W) ∧
    ((L2_BarrierWithSync_WaitAndReset ⟨6, 6⟩ ⟨3⟩ 3).1.localStart = 3 + 3 ∧
     ((L2_BarrierWithSync_WaitAndReset ⟨6, 6⟩ ⟨3⟩ 3).2.isSome ↔
       3 + 3 ≤ 6) ∧
     (L2_BarrierWithSync_WaitAndReset ⟨6, 6⟩ ⟨3⟩ 3).2 =
       (if (6 : Nat) < 3 + 3 then none else some ⟨6, 6⟩)) :=
  ⟨by decide, waitAndReset_advances_then_waits ⟨6, 6⟩ ⟨3⟩ 3 (by decide)⟩

/-- Helper: if some read at or beyond the fuel window start reaches the
target, the spin loop exits within that fuel. -/
theorem spinLoop_isSome_of_reach (observe : Nat → Nat) (target : Nat) :
    ∀ k i, target ≤ observe (i + k) →
      (spinLoop observe target i (k + 1)).isSome := by
  intro k
  induction k with
  | zero =>
      intro i hk
      rw [Nat.add_zero] at hk
      simp [spinLoop, Nat.not_lt_of_le hk]
  | succ k ih =>
      intro i hk
      by_cases hlt : observe i < target
      · have hk2 : target ≤ observe (i + 1 + k) := by
          have : i + 1 + k = i + (k + 1) := by omega
          rw [this]; exact hk
        simpa [spinLoop, hlt] using ih (i + 1) hk2
      · simp [spinLoop, hlt]

/-- Helper: if the spin loop exits within some fuel, some read reached
the target. -/
theorem spinLoop_reach_of_isSome (observe : Nat → Nat) (target : Nat) :
    ∀ fuel i, (spinLoop observe target i fuel).isSome →
      ∃ k, target ≤ observe k := by
  intro fuel
  induction fuel with
  | zero => intro i hsome; simp [spinLoop] at hsome
  | succ fuel ih =>
      intro i hsome
      by_cases hlt : observe i < target
      · rw [spinLoop, if_pos hlt] at hsome
        exact ih (i + 1) hsome
      · exact ⟨i, Nat.le_of_not_lt hlt⟩

/-- C8: `WaitAndReset` terminates exactly when `b.start` reaches the
target `h.localStart + eventNum` (uint64 sum).  On a fixed snapshot, the
call returns iff `target <= b.start` already holds; for the spin loop
read by read (with `observe i` the value of the volatile `b.start` seen
at iteration `i`), some finite fuel suffices iff some read reaches the
target — otherwise no amount of fuel exits: there is no timeout,
cancellation, or bound on the number of iterations. -/
theorem waitAndReset_terminates_iff_target_reached (b : L2_Barrier_t)
    (h : L2_BarrierHandle_t) (eventNum : Nat) (observe : Nat → Nat) :
    ((L2_BarrierWithSync_WaitAndReset b h eventNum).2.isSome ↔
      (h.localStart + eventNum) % W ≤ b.start) ∧
    ((∃ fuel, (spinLoop observe ((h.localStart + eventNum) % W) 0 fuel).isSome)
      ↔ ∃ k, (h.localStart + eventNum) % W ≤ observe k) := by
  constructor
  · by_cases hlt : b.start < (h.localStart + eventNum) % W
    · simp [L2_BarrierWithSync_WaitAndReset, hlt, Nat.not_le_of_lt hlt]
    · simp [L2_BarrierWithSync_WaitAndReset, hlt, Nat.le_of_not_lt hlt]
  · constructor
    · rintro ⟨fuel, hsome⟩
      exact spinLoop_reach_of_isSome observe _ fuel 0 hsome
    · rintro ⟨k, hk⟩
      exact ⟨k + 1, spinLoop_isSome_of_reach observe _ k 0 (by simpa using hk)⟩

/-- Helper for C2: running a chain of `Arrive` calls whose handles all
have `localStart = s`, from a barrier with `start = s` and `count = c`,
where the chain is exactly long enough to bring `count` to `s + n < 2^64`:
the final state is `start = count = s + n` and exactly one call fires
the conditional write. -/
theorem arriveSeq_chain (s n : Nat) :
    ∀ (hs : List L2_BarrierHandle_t) (c : Nat),
      (∀ h ∈ hs, h.localStart = s) →
      c + hs.length = s + n →
      s ≤ c →
      s + n < W →
      hs ≠ [] →
      arriveSeq { start := s, count := c } hs n =
        { start := s + n, count := s + n } ∧
      countStartWrites { start := s, count := c } hs n = 1 := by
  intro hs
  induction hs with
  | nil => intro c _ _ _ _ hne; exact absurd rfl hne
  | cons h t ih =>
      intro c hloc hlen hsc hW _
      have hh : h.localStart = s := hloc h (List.mem_cons_self h t)
      have hc1 : c + 1 ≤ s + n := by
        simp only [List.length_cons] at hlen; omega
      have hcur : (c + 1) % W = c + 1 :=
        Nat.mod_eq_of_lt (Nat.lt_of_le_of_lt hc1 hW)
      have htar : (s + n) % W = s + n := Nat.mod_eq_of_lt hW
      cases t with
      | nil =>
          have hce : c + 1 = s + n := by
            simp only [List.length_cons, List.length_nil] at hlen; omega
          constructor
          · simp [arriveSeq, L2_BarrierWithSync_Arrive, hh, hcur, htar, hce]
          · simp [countStartWrites, arriveWrites, hh, hcur, htar, hce]
      | cons h2 t2 =>
          have hlt : c + 1 < s + n := by
            simp only [List.length_cons] at hlen; omega
          have hne2 : (c + 1) % W ≠ (s + n) % W := by
            rw [hcur, htar]; omega
          have harr : (L2_BarrierWithSync_Arrive ⟨s, c⟩ h n).1 =
              (⟨s, c + 1⟩ : L2_Barrier_t) := by
            simp only [L2_BarrierWithSync_Arrive, hh, hcur, htar]
            rw [if_neg (by omega : ¬ (c + 1 = s + n))]
          have hlen2 : (c + 1) + (h2 :: t2).length = s + n := by
            simp only [List.length_cons] at hlen ⊢; omega
          have hsc2 : s ≤ c + 1 := by omega
          have hrec := ih (c + 1)
            (fun x hx => hloc x (List.mem_cons_of_mem h hx))
            hlen2 hsc2 hW (by simp)
          constructor
          · rw [arriveSeq, harr]; exact hrec.1
          · rw [countStartWrites, harr]
            have hwr : arriveWrites (⟨s, c⟩ : L2_Barrier_t) h n = false := by
              simp [arriveWrites, hh, hne2]
            rw [hwr]
            simpa using hrec.2

/-- C2: for a round beginning at `b.start = b.count = s` with every
participating handle at `localStart = s`, any sequential interleaving of
the `N` atomic increments of `N` calls to `Arrive` with `eventNum = N`
fires the conditional write to `b.start` exactly once, and the final
shared state is `start = count = s + N` (stated below wraparound,
`s + N < 2 ^ 64`). -/
theorem arrive_round_unique_publish (s N : Nat)
    (hs : List L2_BarrierHandle_t) (hlen : hs.length = N)
    (hloc : ∀ h ∈ hs, h.localStart = s) (hN : 0 < N) (hW : s + N < W) :
    arriveSeq ⟨s, s⟩ hs N = ⟨s + N, s + N⟩ ∧
    countStartWrites ⟨s, s⟩ hs N = 1 := by
  have hne : hs ≠ [] := by
    intro hemp
    rw [hemp] at hlen
    simp at hlen
    omega
  exact arriveSeq_chain s N hs s hloc (by rw [hlen]) le_rfl hW hne

/-- Witness for C2: round starting at `s = 0` with `N = 2` arrivals from
two handles at `localStart = 0`. -/
theorem arrive_round_unique_publish_witness :
    (([⟨0⟩, ⟨0⟩] : List L2_BarrierHandle_t).length = 2 ∧
     (∀ h ∈ ([⟨0⟩, ⟨0⟩] : List L2_BarrierHandle_t), h.localStart = 0) ∧
     (0 : Nat) < 2 ∧ (0 : Nat) + 2 < W) ∧
    (arriveSeq ⟨0, 0⟩ [⟨0⟩, ⟨0⟩] 2 = ⟨0 + 2, 0 + 2⟩ ∧
     countStartWrites ⟨0, 0⟩ [⟨0⟩, ⟨0⟩] 2 = 1) :=
  ⟨⟨by decide, by decide, by decide, by decide⟩,
   arrive_round_unique_publish 0 2 [⟨0⟩, ⟨0⟩] (by decide) (by decide)
     (by decide) (by decide)⟩

/-- Helper: on any arguments, `WaitAndReset` either returns the shared
state unchanged or blocks. -/
theorem waitAndReset_dichotomy (b : L2_Barrier_t) (h : L2_BarrierHandle_t)
    (eventNum : Nat) :
    (L2_BarrierWithSync_WaitAndReset b h eventNum).2 = some b ∨
    (L2_BarrierWithSync_WaitAndReset b h eventNum).2 = none := by
  by_cases hlt : b.start < (h.localStart + eventNum) % W
  · right; simp [L2_BarrierWithSync_WaitAndReset, hlt]
  · left; simp [L2_BarrierWithSync_WaitAndReset, hlt]

/-- C4 counterexample: the claimed unconditional preservation of
`count >= start` fails at the uint64 wrap boundary.  From the state
`start = 1`, `count = 2^64 - 1` (which satisfies `count >= start`), one
`Arrive` with `localStart = 0`, `eventNum = 1` wraps `count` to `0` and
leaves `start = 1`, so `count >= start` no longer holds. -/
theorem count_ge_start_broken_at_wrap :
    (L2_Barrier_t.mk 1 (W - 1)).start ≤ (L2_Barrier_t.mk 1 (W - 1)).count ∧
    ¬ ((L2_BarrierWithSync_Arrive ⟨1, W - 1⟩ ⟨0⟩ 1).1.start ≤
       (L2_BarrierWithSync_Arrive ⟨1, W - 1⟩ ⟨0⟩ 1).1.count) := by
  constructor
  · show (1 : Nat) ≤ W - 1
    have : (2 : Nat) ≤ 2 ^ 64 := Nat.le_of_lt (by norm_num)
    simp only [W]
    omega
  · have hcount : (L2_BarrierWithSync_Arrive ⟨1, W - 1⟩ ⟨0⟩ 1).1.count = 0 := by
      show (W - 1 + 1) % W = 0
      have hpos : 0 < W := by simp [W]
      rw [Nat.sub_add_cancel (Nat.one_le_iff_ne_zero.mpr (Nat.pos_iff_ne_zero.mp hpos))]
      exact Nat.mod_self W
    have hstart : (L2_BarrierWithSync_Arrive ⟨1, W - 1⟩ ⟨0⟩ 1).1.start = 1 := by
      show (if (W - 1 + 1) % W = (0 + 1) % W then (W - 1 + 1) % W else 1) = 1
      have hW2 : (1 : Nat) < W := by simp [W]
      have h01 : (0 + 1) % W = 1 := Nat.mod_eq_of_lt (by omega)
      have hww : (W - 1 + 1) % W = 0 := by
        rw [Nat.sub_add_cancel (by omega : 1 ≤ W)]
        exact Nat.mod_self W
      rw [hww, h01]
      simp
    rw [hcount, hstart]
    omega

/-- C4 amended: `count >= start` holds after `Init` and is preserved by
every operation of the barrier, provided the increment does not wrap the
uint64 counter (`count + 1 < 2 ^ 64`) — the regime the code documents
(the fields grow monotonically and will not wrap).  `InitInThread` and
`Reset` do not touch the shared state, `WaitAndReset` only reads it, and
`Arrive` (also inside `Barrier`) only advances `start` to the value
`count` has just reached. -/
theorem count_ge_start_preserved_without_wrap (b : L2_Barrier_t)
    (h : L2_BarrierHandle_t) (eventNum : Nat)
    (hinv : b.start ≤ b.count) (hc : b.count + 1 < W) :
    (L2_BarrierWithSync_Init b).start ≤ (L2_BarrierWithSync_Init b).count ∧
    (L2_BarrierWithSync_Arrive b h eventNum).1.start ≤
      (L2_BarrierWithSync_Arrive b h eventNum).1.count ∧
    (L2_BarrierWithSync_InitInThread b).1 = b ∧
    (L2_BarrierWithSync_Reset b h eventNum).1 = b ∧
    ((L2_BarrierWithSync_WaitAndReset b h eventNum).2 = some b ∨
     (L2_BarrierWithSync_WaitAndReset b h eventNum).2 = none) ∧
    ((L2_BarrierWithSync_Barrier b h eventNum).2 =
        some (L2_BarrierWithSync_Arrive b h eventNum).1 ∨
     (L2_BarrierWithSync_Barrier b h eventNum).2 = none) := by
  have hcur : (b.count + 1) % W = b.count + 1 := Nat.mod_eq_of_lt hc
  refine ⟨Nat.le_refl 0, ?_, rfl, rfl, waitAndReset_dichotomy b h eventNum, ?_⟩
  · show (if (b.count + 1) % W = (h.localStart + eventNum) % W
          then (b.count + 1) % W else b.start) ≤ (b.count + 1) % W
    rw [hcur]
    split
    · exact Nat.le_refl _
    · omega
  · have hB : L2_BarrierWithSync_Barrier b h eventNum =
        L2_BarrierWithSync_WaitAndReset
          (L2_BarrierWithSync_Arrive b h eventNum).1 h eventNum := rfl
    rw [hB]
    exact waitAndReset_dichotomy _ h eventNum

/-- Witness for the amended C4 at `b = {start := 3, count := 5}`,
`h = {localStart := 0}`, `eventNum = 2`. -/
theorem count_ge_start_preserved_without_wrap_witness :
    ((3 : Nat) ≤ 5 ∧ (5 : Nat) + 1 < W) ∧
    ((L2_BarrierWithSync_Init ⟨3, 5⟩).start ≤
       (L2_BarrierWithSync_Init ⟨3, 5⟩).count ∧
     (L2_BarrierWithSync_Arrive ⟨3, 5⟩ ⟨0⟩ 2).1.start ≤
       (L2_BarrierWithSync_Arrive ⟨3, 5⟩ ⟨0⟩ 2).1.count ∧
     (L2_BarrierWithSync_InitInThread ⟨3, 5⟩).1 = ⟨3, 5⟩ ∧
     (L2_BarrierWithSync_Reset ⟨3, 5⟩ ⟨0⟩ 2).1 = ⟨3, 5⟩ ∧
     ((L2_BarrierWithSync_WaitAndReset ⟨3, 5⟩ ⟨0⟩ 2).2 = some ⟨3, 5⟩ ∨
      (L2_BarrierWithSync_WaitAndReset ⟨3, 5⟩ ⟨0⟩ 2).2 = none) ∧
     ((L2_BarrierWithSync_Barrier ⟨3, 5⟩ ⟨0⟩ 2).2 =
         some (L2_BarrierWithSync_Arrive ⟨3, 5⟩ ⟨0⟩ 2).1 ∨
      (L2_BarrierWithSync_Barrier ⟨3, 5⟩ ⟨0⟩ 2).2 = none)) :=
  ⟨⟨by decide, by decide⟩,
   count_ge_start_preserved_without_wrap ⟨3, 5⟩ ⟨0⟩ 2 (by decide) (by decide)⟩

/-- Helper for C7: under per-round well-formedness (each round `i < R`
supplies exactly `eventNum` arrivals from handles at the round boundary
`i * eventNum`) and below wraparound, the state after `r <= R` rounds is
exactly `start = count = r * eventNum` with the tracked handle at
`localStart = r * eventNum`. -/
theorem roundIter_closed (eventNum R : Nat)
    (arr : Nat → List L2_BarrierHandle_t)
    (hn : 0 < eventNum) (hW : R * eventNum < W)
    (hlen : ∀ i, i < R → (arr i).length = eventNum)
    (hloc : ∀ i, i < R → ∀ h ∈ arr i, h.localStart = i * eventNum) :
    ∀ r, r ≤ R → roundIter eventNum arr r =
      (⟨r * eventNum, r * eventNum⟩, ⟨r * eventNum⟩) := by
  intro r
  induction r with
  | zero =>
      intro _
      simp [roundIter, L2_BarrierWithSync_Init, L2_BarrierWithSync_InitInThread]
  | succ r ih =>
      intro hr
      have hrR : r < R := Nat.lt_of_succ_le hr
      have hprev := ih (Nat.le_of_lt hrR)
      have hrnW : r * eventNum + eventNum < W := by
        have h2 : (r + 1) * eventNum ≤ R * eventNum :=
          Nat.mul_le_mul_right eventNum hr
        rw [Nat.succ_mul] at h2
        exact Nat.lt_of_le_of_lt h2 hW
      have hne : arr r ≠ [] := by
        intro hemp
        have := hlen r hrR
        rw [hemp] at this
        simp at this
        omega
      have hchain := arriveSeq_chain (r * eventNum) eventNum (arr r)
        (r * eventNum) (hloc r hrR) (by rw [hlen r hrR]) (Nat.le_refl _)
        hrnW hne
      simp only [roundIter]
      rw [hprev]
      simp only []
      rw [hchain.1]
      simp [L2_BarrierWithSync_WaitAndReset, Nat.mod_eq_of_lt hrnW,
        Nat.succ_mul]

/-- C7: starting from `Init` and `InitInThread` (so `localStart = 0`),
the same shared state and handle serve any number `R` of successive
rounds with the same `eventNum` and no reinitialization: after round
`r <= R` the tracked handle has `localStart = r * eventNum`, the shared
state has `start = count = r * eventNum`, and `start >= localStart`
holds (as it does for every handle at the same round boundary, `Reset`
and `WaitAndReset` applying the identical `localStart` update).  Stated
below wraparound, `R * eventNum < 2 ^ 64`. -/
theorem rounds_repeatable (eventNum R r : Nat)
    (arr : Nat → List L2_BarrierHandle_t)
    (hn : 0 < eventNum) (hW : R * eventNum < W)
    (hlen : ∀ i, i < R → (arr i).length = eventNum)
    (hloc : ∀ i, i < R → ∀ h ∈ arr i, h.localStart = i * eventNum)
    (hr : r ≤ R) :
    (roundIter eventNum arr r).1.start = r * eventNum ∧
    (roundIter eventNum arr r).1.count = r * eventNum ∧
    (roundIter eventNum arr r).2.localStart = r * eventNum ∧
    (roundIter eventNum arr r).2.localStart ≤
      (roundIter eventNum arr r).1.start := by
  have hcl := roundIter_closed eventNum R arr hn hW hlen hloc r hr
  rw [hcl]
  exact ⟨rfl, rfl, rfl, Nat.le_refl _⟩

/-- Witness for C7: two-event rounds (`eventNum = 2`), two rounds
(`R = r = 2`), with the concrete producer arrangement `arrTwo`. -/
theorem rounds_repeatable_witness :
    ((0 : Nat) < 2 ∧ 2 * 2 < W ∧
     (∀ i, i < 2 → (arrTwo i).length = 2) ∧
     (∀ i, i < 2 → ∀ h ∈ arrTwo i, h.localStart = i * 2) ∧
     (2 : Nat) ≤ 2) ∧
    ((roundIter 2 arrTwo 2).1.start = 2 * 2 ∧
     (roundIter 2 arrTwo 2).1.count = 2 * 2 ∧
     (roundIter 2 arrTwo 2).2.localStart = 2 * 2 ∧
     (roundIter 2 arrTwo 2).2.localStart ≤ (roundIter 2 arrTwo 2).1.start) :=
  ⟨⟨by decide, by decide, by decide, by decide, by decide⟩,
   rounds_repeatable 2 2 2 arrTwo (by decide) (by decide) (by decide)
     (by decide) (by decide)⟩
